import Mathlib

/- Verification of the StellarLens screen-space lensing transform.

   This file is a shallow embedding, over exact real arithmetic, of
   - the fragment shader src/shaders/lensing.frag (the lensing transform), and
   - the auxiliary ray visualizer src/js/rayVisualizer.js.

   Machine floating point is modelled by Lean real numbers; division is
   Lean's total division (x / 0 = 0).  Each definition is annotated with the
   source lines it embeds. -/

noncomputable section

namespace StellarLens

/-- A 2-component vector (GLSL vec2 / THREE.Vector2). -/
structure Vec2 where
  x : ℝ
  y : ℝ

/-- A 3-component vector (GLSL vec3 / THREE.Vector3). -/
structure Vec3 where
  x : ℝ
  y : ℝ
  z : ℝ

/-- A 4-component vector (GLSL vec4). -/
structure Vec4 where
  x : ℝ
  y : ℝ
  z : ℝ
  w : ℝ

/-- A 4x4 real matrix (GLSL mat4 / THREE.Matrix4). -/
abbrev Mat4 := Matrix (Fin 4) (Fin 4) ℝ

/-- GLSL dot(vec2, vec2). -/
def dot2 (a b : Vec2) : ℝ := a.x * b.x + a.y * b.y

/-- GLSL dot(vec3, vec3). -/
def dot3 (a b : Vec3) : ℝ := a.x * b.x + a.y * b.y + a.z * b.z

/-- Componentwise vec2 addition. -/
def add2 (a b : Vec2) : Vec2 := ⟨a.x + b.x, a.y + b.y⟩

/-- Componentwise vec2 subtraction. -/
def sub2 (a b : Vec2) : Vec2 := ⟨a.x - b.x, a.y - b.y⟩

/-- Componentwise vec3 addition. -/
def add3 (a b : Vec3) : Vec3 := ⟨a.x + b.x, a.y + b.y, a.z + b.z⟩

/-- Componentwise vec3 subtraction. -/
def sub3 (a b : Vec3) : Vec3 := ⟨a.x - b.x, a.y - b.y, a.z - b.z⟩

/-- Scalar multiple of a vec3. -/
def scale3 (t : ℝ) (v : Vec3) : Vec3 := ⟨t * v.x, t * v.y, t * v.z⟩

/-- Euclidean length of a vec2 (GLSL length / THREE length). -/
def norm2 (v : Vec2) : ℝ := Real.sqrt (dot2 v v)

/-- Euclidean length of a vec3 (GLSL length / THREE length). -/
def norm3 (v : Vec3) : ℝ := Real.sqrt (dot3 v v)

/-- GLSL normalize(vec3): divide by the length. -/
def normalize3 (v : Vec3) : Vec3 :=
  let len := Real.sqrt (dot3 v v)
  ⟨v.x / len, v.y / len, v.z / len⟩

/-- Matrix-vector product, mat4 * vec4 (column-vector convention). -/
def mulVec4 (m : Mat4) (v : Vec4) : Vec4 :=
  ⟨m 0 0 * v.x + m 0 1 * v.y + m 0 2 * v.z + m 0 3 * v.w,
   m 1 0 * v.x + m 1 1 * v.y + m 1 2 * v.z + m 1 3 * v.w,
   m 2 0 * v.x + m 2 1 * v.y + m 2 2 * v.z + m 2 3 * v.w,
   m 3 0 * v.x + m 3 1 * v.y + m 3 2 * v.z + m 3 3 * v.w⟩

/-- GLSL fract(x) = x - floor(x). -/
def fract (x : ℝ) : ℝ := x - ⌊x⌋

/-- Componentwise fract on a vec2 (lensing.frag lines 39, 68, 79). -/
def fract2 (v : Vec2) : Vec2 := ⟨fract v.x, fract v.y⟩

/-- Sampling the background texture.  lensingEffect.js sets
    wrapS = wrapT = RepeatWrapping, so texture2D wraps the coordinate by its
    fractional part (never clamping). -/
def texture2D (tex : Vec2 → Vec4) (uv : Vec2) : Vec4 := tex (fract2 uv)

/-- The uniform block of src/shaders/lensing.frag (lines 1-15), together with
    the background texture as a sampling function. -/
structure Uniforms where
  tex : Vec2 → Vec4
  resolution : Vec2
  time : ℝ
  blackHoleWorldPosition : Vec3
  lensingStrength : ℝ
  eventHorizonRadius : ℝ
  viewMatrixInverse : Mat4
  projectionMatrixInverse : Mat4
  cameraWorldPosition : Vec3

/-- lensing.frag lines 17-24 (getRayDirection): unproject a screen UV to a
    normalized world-space ray direction.  camPos is a parameter of the GLSL
    function but is unused in its body. -/
def getRayDirection (screenUv : Vec2) (camPos : Vec3) (projInv viewInv : Mat4) : Vec3 :=
  let ndc : Vec2 := ⟨screenUv.x * 2 - 1, screenUv.y * 2 - 1⟩
  let rayClip : Vec4 := ⟨ndc.x, ndc.y, -1, 1⟩
  let rayEye := mulVec4 projInv rayClip
  let rayEyeDiv : Vec3 := ⟨rayEye.x / rayEye.w, rayEye.y / rayEye.w, rayEye.z / rayEye.w⟩
  let worldDir := mulVec4 viewInv ⟨rayEyeDiv.x, rayEyeDiv.y, rayEyeDiv.z, 0⟩
  normalize3 ⟨worldDir.x, worldDir.y, worldDir.z⟩

/-- lensing.frag lines 30-31: tca = dot(L, rayDir) with
    L = blackHoleWorldPosition - rayOrigin. -/
def tcaOf (u : Uniforms) (vUv : Vec2) : ℝ :=
  let rayDir := getRayDirection vUv u.cameraWorldPosition u.projectionMatrixInverse u.viewMatrixInverse
  let L := sub3 u.blackHoleWorldPosition u.cameraWorldPosition
  dot3 L rayDir

/-- lensing.frag lines 43-44: the impact parameter
    d = sqrt(dot(L, L) - tca * tca). -/
def impactDistOf (u : Uniforms) (vUv : Vec2) : ℝ :=
  let L := sub3 u.blackHoleWorldPosition u.cameraWorldPosition
  Real.sqrt (dot3 L L - tcaOf u vUv * tcaOf u vUv)

/-- lensing.frag lines 51-55: project the black hole world position through
    the camera to its screen UV.  viewMatrix and projectionMatrix are
    recovered by inverting the supplied inverse matrices. -/
def bhUvOf (u : Uniforms) : Vec2 :=
  let viewMatrix := u.viewMatrixInverse⁻¹
  let projectionMatrix := u.projectionMatrixInverse⁻¹
  let bh := u.blackHoleWorldPosition
  let bhClipPos := mulVec4 (projectionMatrix * viewMatrix) ⟨bh.x, bh.y, bh.z, 1⟩
  let bhNdc : Vec2 := ⟨bhClipPos.x / bhClipPos.w, bhClipPos.y / bhClipPos.w⟩
  ⟨bhNdc.x * 0.5 + 0.5, bhNdc.y * 0.5 + 0.5⟩

/-- lensing.frag line 58: aspect = resolution.x / resolution.y. -/
def aspectOf (u : Uniforms) : ℝ := u.resolution.x / u.resolution.y

/-- lensing.frag lines 62-63: uv_centered = vUv - bhUv with the x component
    aspect-corrected. -/
def uvCenteredOf (u : Uniforms) (vUv : Vec2) : Vec2 :=
  ⟨(vUv.x - (bhUvOf u).x) * aspectOf u, vUv.y - (bhUvOf u).y⟩

/-- lensing.frag line 64: r2 = dot(uv_centered, uv_centered). -/
def r2Of (u : Uniforms) (vUv : Vec2) : ℝ := dot2 (uvCenteredOf u vUv) (uvCenteredOf u vUv)

/-- lensing.frag line 72: the aspect-corrected sample offset
    uv_centered * (1.0 - lensingStrength / r2). -/
def sampleOffsetAC (uvC : Vec2) (strength : ℝ) : Vec2 :=
  let r2 := dot2 uvC uvC
  ⟨uvC.x * (1 - strength / r2), uvC.y * (1 - strength / r2)⟩

/-- lensing.frag lines 72-74: the remapped sampling coordinate before the
    time drift and the final wrap: finalUv = bhUv + sample_offset with the
    x component aspect-de-corrected. -/
def preDriftFinalUv (u : Uniforms) (vUv : Vec2) : Vec2 :=
  let off := sampleOffsetAC (uvCenteredOf u vUv) u.lensingStrength
  ⟨(bhUvOf u).x + off.x / aspectOf u, (bhUvOf u).y + off.y⟩

/-- lensing.frag lines 38, 67, 77-78: the shared time-drift offset
    vec2(sin(time * 0.01) * 0.005, cos(time * 0.015) * 0.005). -/
def driftVec (time : ℝ) : Vec2 :=
  ⟨Real.sin (time * 0.01) * 0.005, Real.cos (time * 0.015) * 0.005⟩

/-- The per-pixel outcome: the absorbed outcome or a sampled color. -/
inductive FragResult where
  | absorbed
  | color (c : Vec4)

/-- lensing.frag line 47: the absorbed outcome is rendered opaque black. -/
def FragResult.toColor : FragResult → Vec4
  | .absorbed => ⟨0, 0, 0, 1⟩
  | .color c => c

/-- lensing.frag lines 37-39 and 67-68: the unlensed background sample,
    texture2D(backgroundTexture, fract(vUv + drift)). -/
def unlensedColor (u : Uniforms) (vUv : Vec2) : FragResult :=
  .color (texture2D u.tex (fract2 (add2 vUv (driftVec u.time))))

/-- lensing.frag lines 76-81: the deflected sample,
    texture2D(backgroundTexture, fract(finalUv + drift)). -/
def lensedColor (u : Uniforms) (vUv : Vec2) : FragResult :=
  .color (texture2D u.tex (fract2 (add2 (preDriftFinalUv u vUv) (driftVec u.time))))

/-- lensing.frag main (lines 26-82): the per-pixel lensing transform. -/
def shaderMain (u : Uniforms) (vUv : Vec2) : FragResult :=
  if tcaOf u vUv < 0 then
    unlensedColor u vUv
  else if impactDistOf u vUv < u.eventHorizonRadius then
    .absorbed
  else if r2Of u vUv < 0.000001 then
    unlensedColor u vUv
  else
    lensedColor u vUv

/-- The rendered RGBA value of one pixel. -/
def fragColorOf (u : Uniforms) (vUv : Vec2) : Vec4 := (shaderMain u vUv).toColor

/-- The guard conditions under which lensing.frag reaches the division by r2
    on line 72 (the negations of the three early-return tests). -/
def lensedBranchOf (u : Uniforms) (vUv : Vec2) : Prop :=
  ¬ tcaOf u vUv < 0 ∧ ¬ impactDistOf u vUv < u.eventHorizonRadius ∧ ¬ r2Of u vUv < 0.000001

/- ----------------------------------------------------------------------
   Embedding of src/js/rayVisualizer.js (auxiliary ray visualizer).
   ---------------------------------------------------------------------- -/

/-- rayVisualizer.js line 4: MAX_RAYS = 50. -/
def MAX_RAYS : ℕ := 50

/-- The fields of the shared parameter object consumed by updateRayVisuals. -/
structure RayParams where
  showRays : Bool
  numVisualizedRays : ℕ
  rayOriginRadiusFactor : ℝ
  raySourceDistance : ℝ
  eventHorizonRadius : ℝ

/-- The camera state consumed by updateRayVisuals (THREE.PerspectiveCamera
    matrices and world position). -/
structure RayCamera where
  position : Vec3
  projectionMatrix : Mat4
  matrixWorldInverse : Mat4
  projectionMatrixInverse : Mat4
  matrixWorld : Mat4

/-- The browser window dimensions read by updateRayVisuals. -/
structure WindowDims where
  innerWidth : ℝ
  innerHeight : ℝ

/-- THREE.Vector3.applyMatrix4: transform a point by a mat4 with the
    perspective divide by the resulting w. -/
def applyMatrix4 (m : Mat4) (v : Vec3) : Vec3 :=
  let c := mulVec4 m ⟨v.x, v.y, v.z, 1⟩
  ⟨c.x / c.w, c.y / c.w, c.z / c.w⟩

/-- rayVisualizer.js lines 146-152 (getBlackHoleScreenPosition):
    project the black hole to pixel coordinates.
    THREE.Vector3.project applies matrixWorldInverse, then projectionMatrix. -/
def getBlackHoleScreenPosition (w : WindowDims) (cam : RayCamera) (bh : Vec3) : Vec3 :=
  let v := applyMatrix4 cam.projectionMatrix (applyMatrix4 cam.matrixWorldInverse bh)
  ⟨(v.x * 0.5 + 0.5) * w.innerWidth, (v.y * (-0.5) + 0.5) * w.innerHeight, v.z⟩

/-- THREE.Vector3.unproject: apply projectionMatrixInverse, then matrixWorld. -/
def unprojectPoint (cam : RayCamera) (v : Vec3) : Vec3 :=
  applyMatrix4 cam.matrixWorld (applyMatrix4 cam.projectionMatrixInverse v)

/-- rayVisualizer.js lines 40-46: the observed screen point of ray i of
    numRays, on a circle around the black hole screen position. -/
def rayObservedScreen (p : RayParams) (bhS : Vec3) (numRays i : ℕ) : Vec2 :=
  let angle := ((i : ℝ) / (numRays : ℝ)) * Real.pi * 2
  ⟨bhS.x + Real.cos angle * p.rayOriginRadiusFactor * p.eventHorizonRadius * 50,
   bhS.y + Real.sin angle * p.rayOriginRadiusFactor * p.eventHorizonRadius * 50⟩

/-- rayVisualizer.js lines 48-55: the world direction from the camera through
    the observed screen point. -/
def rayToObserverDir (w : WindowDims) (cam : RayCamera) (os : Vec2) : Vec3 :=
  let ndc : Vec2 := ⟨os.x / w.innerWidth * 2 - 1, -(os.y / w.innerHeight) * 2 + 1⟩
  let unp := unprojectPoint cam ⟨ndc.x, ndc.y, -1⟩
  normalize3 (sub3 unp cam.position)

/-- rayVisualizer.js lines 108-112: the computed impact parameter of ray i:
    the distance from the black hole center to the closest point on the ray. -/
def rayImpactParam (p : RayParams) (w : WindowDims) (cam : RayCamera) (bh : Vec3)
    (numRays i : ℕ) : ℝ :=
  let os := rayObservedScreen p (getBlackHoleScreenPosition w cam bh) numRays i
  let dir := rayToObserverDir w cam os
  let L := sub3 bh cam.position
  let tca := dot3 L dir
  let pClosest := add3 cam.position (scale3 tca dir)
  let dVec := sub3 pClosest bh
  norm3 dVec

/-- rayVisualizer.js lines 58-103: the approximate background source point of
    ray i, obtained by crudely inverting the screen-space lensing term. -/
def raySourcePoint (p : RayParams) (w : WindowDims) (cam : RayCamera) (bh : Vec3)
    (strength : ℝ) (numRays i : ℕ) : Vec3 :=
  let bhS := getBlackHoleScreenPosition w cam bh
  let os := rayObservedScreen p bhS numRays i
  let bhUv : Vec2 := ⟨bhS.x / w.innerWidth, 1 - bhS.y / w.innerHeight⟩
  let observedUv : Vec2 := ⟨os.x / w.innerWidth, 1 - os.y / w.innerHeight⟩
  let aspect := w.innerWidth / w.innerHeight
  let uvC : Vec2 := ⟨(observedUv.x - bhUv.x) * aspect, observedUv.y - bhUv.y⟩
  let r2 := dot2 uvC uvC
  let srcC : Vec2 :=
    if r2 > 0.00001 ∧ strength > 0 then
      ⟨uvC.x * (1 + strength / r2), uvC.y * (1 + strength / r2)⟩
    else uvC
  let sourceUv : Vec2 := ⟨bhUv.x + srcC.x / aspect, bhUv.y + srcC.y⟩
  let bgW : ℝ := 200
  let bgH : ℝ := 200 / aspect
  ⟨(sourceUv.x - 0.5) * bgW, (sourceUv.y - 0.5) * bgH, bh.z - p.raySourceDistance⟩

/-- rayVisualizer.js lines 114-120: intersect the approximate incoming ray
    with the black hole z-plane (THREE.Ray.intersectPlane semantics: the
    target stays at the zero vector when there is no intersection). -/
def rayBendPoint (source bh : Vec3) : Vec3 :=
  let dir := normalize3 (sub3 bh source)
  let den := dir.z
  if den = 0 then (if source.z - bh.z = 0 then source else ⟨0, 0, 0⟩)
  else
    let t := -(source.z + -bh.z) / den
    if 0 ≤ t then add3 source (scale3 t dir) else ⟨0, 0, 0⟩

/-- One ray of the updateRayVisuals loop (rayVisualizer.js lines 39-143):
    none when the ray is skipped as absorbed (line 122), otherwise the three
    points of its drawn segment (source, bend point, camera). -/
def processRay (p : RayParams) (w : WindowDims) (cam : RayCamera) (bh : Vec3)
    (strength : ℝ) (numRays i : ℕ) : Option (Vec3 × Vec3 × Vec3) :=
  if rayImpactParam p w cam bh numRays i < p.eventHorizonRadius * 1.1 then none
  else
    some (raySourcePoint p w cam bh strength numRays i,
          rayBendPoint (raySourcePoint p w cam bh strength numRays i) bh,
          cam.position)

/-- rayVisualizer.js line 33: numRays = Math.min(MAX_RAYS, params.numVisualizedRays). -/
def numRaysOf (p : RayParams) : ℕ := min MAX_RAYS p.numVisualizedRays

/-- The segments made visible by one updateRayVisuals call (empty when
    showRays is off, lines 25-28). -/
def visibleSegments (p : RayParams) (w : WindowDims) (cam : RayCamera) (bh : Vec3)
    (strength : ℝ) : List (Vec3 × Vec3 × Vec3) :=
  if p.showRays then
    (List.range (numRaysOf p)).filterMap (processRay p w cam bh strength (numRaysOf p))
  else []

/-- The reuse-or-append bookkeeping of rayVisualizer.js lines 126-142 on the
    state (number of line objects in the group, visibleRayIndex): a skipped
    ray leaves the state unchanged; a drawn ray reuses the child at
    visibleRayIndex when one exists and appends a new line otherwise. -/
def drawStep (st : ℕ × ℕ) (r : Option (Vec3 × Vec3 × Vec3)) : ℕ × ℕ :=
  match r with
  | none => st
  | some _ => (if st.2 < st.1 then st.1 else st.1 + 1, st.2 + 1)

/-- One updateRayVisuals call starting from a group with len line objects:
    returns (line objects afterwards, rays made visible). -/
def runUpdate (p : RayParams) (w : WindowDims) (cam : RayCamera) (bh : Vec3)
    (strength : ℝ) (len : ℕ) : ℕ × ℕ :=
  if p.showRays then
    ((List.range (numRaysOf p)).map (processRay p w cam bh strength (numRaysOf p))).foldl
      drawStep (len, 0)
  else (len, 0)

/-- The argument bundle of one updateRayVisuals call. -/
structure RayCall where
  p : RayParams
  w : WindowDims
  cam : RayCamera
  bh : Vec3
  strength : ℝ

/-- The number of line objects in the ray-lines group after a sequence of
    updateRayVisuals calls, starting from the empty group created by
    setupRayVisualizer. -/
def groupLenAfter (calls : List RayCall) : ℕ :=
  calls.foldl (fun len a => (runUpdate a.p a.w a.cam a.bh a.strength len).1) 0

/- ----------------------------------------------------------------------
   General lemmas about the embedded primitives.
   ---------------------------------------------------------------------- -/

lemma fract_eq_int_fract (x : ℝ) : fract x = Int.fract x := rfl

lemma fract_nonneg (x : ℝ) : 0 ≤ fract x := Int.fract_nonneg x

lemma fract_lt_one (x : ℝ) : fract x < 1 := Int.fract_lt_one x

lemma fract_fract (x : ℝ) : fract (fract x) = fract x := by
  rw [fract_eq_int_fract, fract_eq_int_fract, Int.fract_fract]

lemma fract_add_one (x : ℝ) : fract (x + 1) = fract x := by
  rw [fract_eq_int_fract, fract_eq_int_fract]
  have h := Int.fract_add_int x 1
  push_cast at h
  exact h

lemma fract2_fract2 (v : Vec2) : fract2 (fract2 v) = fract2 v := by
  simp [fract2, fract_fract]

lemma mulVec4_one (v : Vec4) : mulVec4 1 v = v := by
  obtain ⟨a, b, c, d⟩ := v
  simp [mulVec4, Matrix.one_apply]

lemma mat4_inv_one : (1 : Mat4)⁻¹ = 1 := Matrix.inv_eq_left_inv (by rw [one_mul])

/- ----------------------------------------------------------------------
   Concrete evaluation scenes (identity camera matrices, camera at the
   origin, unit resolution, time 0, constant white background).
   ---------------------------------------------------------------------- -/

/-- A constant white background field. -/
def texWhite : Vec2 → Vec4 := fun _ => ⟨1, 1, 1, 1⟩

/-- The screen center. -/
def uvMid : Vec2 := ⟨0.5, 0.5⟩

/-- Black hole one unit behind the camera (tca < 0) with event-horizon
    radius 2, so the hole is well inside the 2x-radius spherical margin. -/
def sceneNear : Uniforms := ⟨texWhite, ⟨1, 1⟩, 0, ⟨0, 0, 1⟩, 0.03334, 2, 1, 1, ⟨0, 0, 0⟩⟩

/-- Black hole dead ahead of the camera: the center ray passes through its
    center (impact parameter 0 < radius 1). -/
def sceneFront : Uniforms := ⟨texWhite, ⟨1, 1⟩, 0, ⟨0, 0, -9⟩, 0.03334, 1, 1, 1, ⟨0, 0, 0⟩⟩

/-- Black hole ahead but well off the center ray (impact parameter
    5 >= radius 1), so the center pixel takes the deflected path. -/
def sceneSide : Uniforms := ⟨texWhite, ⟨1, 1⟩, 0, ⟨5, 0, -9⟩, 0.03334, 1, 1, 1, ⟨0, 0, 0⟩⟩

/-- Same geometry as sceneSide with lensing strength exactly 0. -/
def sceneZeroStrength : Uniforms := ⟨texWhite, ⟨1, 1⟩, 0, ⟨5, 0, -9⟩, 0, 1, 1, 1, ⟨0, 0, 0⟩⟩

lemma rayDir_mid (c : Vec3) : getRayDirection uvMid c 1 1 = ⟨0, 0, -1⟩ := by
  simp [getRayDirection, mulVec4_one, normalize3, dot3, uvMid]
  norm_num [Real.sqrt_one]

lemma tca_sceneNear : tcaOf sceneNear uvMid = -1 := by
  simp [tcaOf, sceneNear, rayDir_mid, sub3, dot3]

lemma tca_sceneFront : tcaOf sceneFront uvMid = 9 := by
  simp [tcaOf, sceneFront, rayDir_mid, sub3, dot3]

lemma tca_sceneSide : tcaOf sceneSide uvMid = 9 := by
  simp [tcaOf, sceneSide, rayDir_mid, sub3, dot3]

lemma tca_sceneZeroStrength : tcaOf sceneZeroStrength uvMid = 9 := by
  simp [tcaOf, sceneZeroStrength, rayDir_mid, sub3, dot3]

lemma d_sceneNear : impactDistOf sceneNear uvMid = 0 := by
  simp only [impactDistOf, tca_sceneNear]
  have h : dot3 (sub3 sceneNear.blackHoleWorldPosition sceneNear.cameraWorldPosition)
      (sub3 sceneNear.blackHoleWorldPosition sceneNear.cameraWorldPosition) = 1 := by
    simp [sceneNear, sub3, dot3]
  rw [h]
  norm_num [Real.sqrt_zero]

lemma d_sceneFront : impactDistOf sceneFront uvMid = 0 := by
  simp only [impactDistOf, tca_sceneFront]
  have h : dot3 (sub3 sceneFront.blackHoleWorldPosition sceneFront.cameraWorldPosition)
      (sub3 sceneFront.blackHoleWorldPosition sceneFront.cameraWorldPosition) = 81 := by
    simp [sceneFront, sub3, dot3]
    norm_num
  rw [h]
  norm_num [Real.sqrt_zero]

lemma d_sceneSide : impactDistOf sceneSide uvMid = 5 := by
  simp only [impactDistOf, tca_sceneSide]
  have h : dot3 (sub3 sceneSide.blackHoleWorldPosition sceneSide.cameraWorldPosition)
      (sub3 sceneSide.blackHoleWorldPosition sceneSide.cameraWorldPosition) = 106 := by
    simp [sceneSide, sub3, dot3]
    norm_num
  rw [h, show (106 : ℝ) - 9 * 9 = 5 ^ 2 by norm_num,
    Real.sqrt_sq (by norm_num : (0:ℝ) ≤ 5)]

lemma d_sceneZeroStrength : impactDistOf sceneZeroStrength uvMid = 5 := by
  simp only [impactDistOf, tca_sceneZeroStrength]
  have h : dot3 (sub3 sceneZeroStrength.blackHoleWorldPosition sceneZeroStrength.cameraWorldPosition)
      (sub3 sceneZeroStrength.blackHoleWorldPosition sceneZeroStrength.cameraWorldPosition) = 106 := by
    simp [sceneZeroStrength, sub3, dot3]
    norm_num
  rw [h, show (106 : ℝ) - 9 * 9 = 5 ^ 2 by norm_num,
    Real.sqrt_sq (by norm_num : (0:ℝ) ≤ 5)]

lemma bhUv_sceneSide : bhUvOf sceneSide = ⟨3, 0.5⟩ := by
  simp [bhUvOf, sceneSide, mat4_inv_one, mulVec4_one]
  norm_num

lemma bhUv_sceneZeroStrength : bhUvOf sceneZeroStrength = ⟨3, 0.5⟩ := by
  simp [bhUvOf, sceneZeroStrength, mat4_inv_one, mulVec4_one]
  norm_num

lemma r2_sceneSide : r2Of sceneSide uvMid = 6.25 := by
  simp only [r2Of, uvCenteredOf, bhUv_sceneSide]
  simp [aspectOf, dot2, sceneSide, uvMid]
  norm_num

lemma r2_sceneZeroStrength : r2Of sceneZeroStrength uvMid = 6.25 := by
  simp only [r2Of, uvCenteredOf, bhUv_sceneZeroStrength]
  simp [aspectOf, dot2, sceneZeroStrength, uvMid]
  norm_num

lemma shader_sceneNear : shaderMain sceneNear uvMid = unlensedColor sceneNear uvMid := by
  have h1 : tcaOf sceneNear uvMid < 0 := by rw [tca_sceneNear]; norm_num
  unfold shaderMain
  rw [if_pos h1]

lemma unlensed_sceneNear : unlensedColor sceneNear uvMid = .color ⟨1, 1, 1, 1⟩ := by
  simp [unlensedColor, texture2D, sceneNear, texWhite]

lemma shader_sceneSide : shaderMain sceneSide uvMid = FragResult.color ⟨1, 1, 1, 1⟩ := by
  have h1 : ¬ tcaOf sceneSide uvMid < 0 := by rw [tca_sceneSide]; norm_num
  have h2 : ¬ impactDistOf sceneSide uvMid < sceneSide.eventHorizonRadius := by
    rw [d_sceneSide]; norm_num [sceneSide]
  have h3 : ¬ r2Of sceneSide uvMid < 0.000001 := by rw [r2_sceneSide]; norm_num
  unfold shaderMain
  rw [if_neg h1, if_neg h2, if_neg h3]
  simp [lensedColor, texture2D, sceneSide, texWhite]

/- ----------------------------------------------------------------------
   Claims about the lensing transform.
   ---------------------------------------------------------------------- -/

/-- C1 (counterexample to the claim as stated): with the black hole behind
    the camera, the geometric impact parameter d is below the event-horizon
    radius, yet lensing.frag takes the tca < 0 early return (line 36) and
    yields a background color, not the absorbed outcome. -/
theorem c1_absorption_counterexample :
    impactDistOf sceneNear uvMid < sceneNear.eventHorizonRadius ∧
    shaderMain sceneNear uvMid ≠ .absorbed ∧
    fragColorOf sceneNear uvMid ≠ ⟨0, 0, 0, 1⟩ := by
  refine ⟨?_, ?_, ?_⟩
  · rw [d_sceneNear]; norm_num [sceneNear]
  · rw [shader_sceneNear, unlensed_sceneNear]; simp
  · rw [fragColorOf, shader_sceneNear, unlensed_sceneNear]
    simp [FragResult.toColor, Vec4.mk.injEq]

/-- C1 (amended): whenever the black hole is not behind the ray origin
    (tca >= 0), an impact parameter d < eventHorizonRadius yields exactly
    the absorbed outcome, rendered opaque black RGBA (0,0,0,1); and whenever
    d >= eventHorizonRadius the result is never the absorbed outcome. -/
theorem c1_absorption (u : Uniforms) (vUv : Vec2) :
    (0 ≤ tcaOf u vUv → impactDistOf u vUv < u.eventHorizonRadius →
      shaderMain u vUv = .absorbed ∧ fragColorOf u vUv = ⟨0, 0, 0, 1⟩) ∧
    (u.eventHorizonRadius ≤ impactDistOf u vUv → shaderMain u vUv ≠ .absorbed) := by
  constructor
  · intro htca hd
    have h1 : ¬ tcaOf u vUv < 0 := not_lt.mpr htca
    have habs : shaderMain u vUv = .absorbed := by
      unfold shaderMain
      rw [if_neg h1, if_pos hd]
    exact ⟨habs, by rw [fragColorOf, habs]; rfl⟩
  · intro hd
    have h2 : ¬ impactDistOf u vUv < u.eventHorizonRadius := not_lt.mpr hd
    unfold shaderMain
    by_cases h1 : tcaOf u vUv < 0
    · rw [if_pos h1]; simp [unlensedColor]
    · rw [if_neg h1, if_neg h2]
      by_cases h3 : r2Of u vUv < 0.000001
      · rw [if_pos h3]; simp [unlensedColor]
      · rw [if_neg h3]; simp [lensedColor]

/-- C1 witness: concrete scenes discharging both hypotheses of the amended
    absorption theorem. -/
theorem c1_absorption_witness :
    (0 ≤ tcaOf sceneFront uvMid ∧
      impactDistOf sceneFront uvMid < sceneFront.eventHorizonRadius ∧
      shaderMain sceneFront uvMid = .absorbed ∧
      fragColorOf sceneFront uvMid = ⟨0, 0, 0, 1⟩) ∧
    (sceneSide.eventHorizonRadius ≤ impactDistOf sceneSide uvMid ∧
      shaderMain sceneSide uvMid ≠ .absorbed) := by
  have htca : 0 ≤ tcaOf sceneFront uvMid := by rw [tca_sceneFront]; norm_num
  have hd : impactDistOf sceneFront uvMid < sceneFront.eventHorizonRadius := by
    rw [d_sceneFront]; norm_num [sceneFront]
  have hd2 : sceneSide.eventHorizonRadius ≤ impactDistOf sceneSide uvMid := by
    rw [d_sceneSide]; norm_num [sceneSide]
  obtain ⟨ha, hb⟩ := (c1_absorption sceneFront uvMid).1 htca hd
  exact ⟨⟨htca, hd, ha, hb⟩, hd2, (c1_absorption sceneSide uvMid).2 hd2⟩

/-- C2: the transform is total with exactly two outcomes (a color or the
    absorbed result), and the division by r2 on line 72 is reached only with
    r2 at or above the 1e-6 epsilon guard of line 66. -/
theorem c2_totality (u : Uniforms) (vUv : Vec2) :
    (shaderMain u vUv = .absorbed ∨ ∃ c, shaderMain u vUv = .color c) ∧
    (lensedBranchOf u vUv → (0.000001 : ℝ) ≤ r2Of u vUv) := by
  constructor
  · cases h : shaderMain u vUv with
    | absorbed => exact Or.inl rfl
    | color c => exact Or.inr ⟨c, rfl⟩
  · intro hl
    exact not_lt.mp hl.2.2

/-- C2 witness: a concrete scene reaching the deflected branch, where the
    guarded r2 is indeed at least the epsilon. -/
theorem c2_totality_witness :
    lensedBranchOf sceneSide uvMid ∧ (0.000001 : ℝ) ≤ r2Of sceneSide uvMid := by
  have hl : lensedBranchOf sceneSide uvMid := by
    refine ⟨?_, ?_, ?_⟩
    · rw [tca_sceneSide]; norm_num
    · rw [d_sceneSide]; norm_num [sceneSide]
    · rw [r2_sceneSide]; norm_num
  exact ⟨hl, (c2_totality sceneSide uvMid).2 hl⟩

/-- C3: with lensing strength exactly 0 and r2 above the epsilon, the
    remapped sampling coordinate before the shared time drift equals the
    input coordinate. -/
theorem c3_identity_at_zero_strength (u : Uniforms) (vUv : Vec2)
    (hx : 0 < u.resolution.x) (hy : 0 < u.resolution.y)
    (hs : u.lensingStrength = 0) (hr2 : (0.000001 : ℝ) ≤ r2Of u vUv) :
    preDriftFinalUv u vUv = vUv := by
  have ha : aspectOf u ≠ 0 := ne_of_gt (div_pos hx hy)
  obtain ⟨vx, vy⟩ := vUv
  simp only [preDriftFinalUv, sampleOffsetAC, uvCenteredOf, hs, zero_div, sub_zero, mul_one,
    Vec2.mk.injEq]
  constructor
  · rw [mul_div_assoc, div_self ha, mul_one]
    ring
  · ring

/-- C3 witness: the zero-strength scene, where the remap is the identity. -/
theorem c3_identity_witness :
    0 < sceneZeroStrength.resolution.x ∧ 0 < sceneZeroStrength.resolution.y ∧
    sceneZeroStrength.lensingStrength = 0 ∧
    (0.000001 : ℝ) ≤ r2Of sceneZeroStrength uvMid ∧
    preDriftFinalUv sceneZeroStrength uvMid = uvMid := by
  have hx : 0 < sceneZeroStrength.resolution.x := by norm_num [sceneZeroStrength]
  have hy : 0 < sceneZeroStrength.resolution.y := by norm_num [sceneZeroStrength]
  have hs : sceneZeroStrength.lensingStrength = 0 := rfl
  have hr2 : (0.000001 : ℝ) ≤ r2Of sceneZeroStrength uvMid := by
    rw [r2_sceneZeroStrength]; norm_num
  exact ⟨hx, hy, hs, hr2, c3_identity_at_zero_strength _ _ hx hy hs hr2⟩

/-- The deflection magnitude in aspect-corrected screen space: the distance
    between the undeflected centered coordinate and the remapped one of
    line 72 (the shared time-drift offset cancels in this difference). -/
def deflectionMag (v : Vec2) (s : ℝ) : ℝ := norm2 (sub2 (sampleOffsetAC v s) v)

lemma deflection_sq (v : Vec2) (s : ℝ) :
    dot2 (sub2 (sampleOffsetAC v s) v) (sub2 (sampleOffsetAC v s) v) =
      (s / dot2 v v) ^ 2 * dot2 v v := by
  obtain ⟨x, y⟩ := v
  simp only [sampleOffsetAC, sub2, dot2]
  ring

lemma dot2_self_nonneg (v : Vec2) : 0 ≤ dot2 v v := by
  obtain ⟨x, y⟩ := v
  simp only [dot2]
  have hx := mul_self_nonneg x
  have hy := mul_self_nonneg y
  linarith

/-- C4 (counterexample to the claim as stated): increasing the strength from
    0 to r2 shrinks |sampleOffset| (from |uvCentered| to 0). -/
theorem c4_offset_counterexample :
    (0 : ℝ) ≤ 0 ∧ (0 : ℝ) < 0.01 ∧
    norm2 (sampleOffsetAC ⟨0.1, 0⟩ 0.01) < norm2 (sampleOffsetAC ⟨0.1, 0⟩ 0) := by
  refine ⟨le_refl _, by norm_num, ?_⟩
  have h1 : sampleOffsetAC ⟨0.1, 0⟩ 0.01 = ⟨0, 0⟩ := by
    simp only [sampleOffsetAC, dot2, Vec2.mk.injEq]
    norm_num
  have h2 : sampleOffsetAC ⟨0.1, 0⟩ 0 = ⟨0.1, 0⟩ := by
    simp only [sampleOffsetAC, dot2, Vec2.mk.injEq]
    norm_num
  rw [h1, h2]
  have h3 : norm2 ⟨0, 0⟩ = 0 := by simp [norm2, dot2]
  have h4 : norm2 ⟨0.1, 0⟩ = 0.1 := by
    simp only [norm2, dot2]
    rw [show (0.1 : ℝ) * 0.1 + 0 * 0 = 0.1 ^ 2 by norm_num,
      Real.sqrt_sq (by norm_num : (0:ℝ) ≤ 0.1)]
  rw [h3, h4]
  norm_num

/-- C4 (amended): holding the centered coordinate (hence r2) fixed, the
    deflection magnitude |sampleOffset - uvCentered| is monotonically
    nondecreasing in the strength over strength >= 0. -/
theorem c4_deflection_monotone (v : Vec2) (s1 s2 : ℝ) (h0 : 0 ≤ s1) (h12 : s1 ≤ s2) :
    deflectionMag v s1 ≤ deflectionMag v s2 := by
  unfold deflectionMag norm2
  apply Real.sqrt_le_sqrt
  rw [deflection_sq, deflection_sq]
  rcases (dot2_self_nonneg v).eq_or_lt with h | h
  · rw [← h]
    simp
  · have hdiv : s1 / dot2 v v ≤ s2 / dot2 v v := (div_le_div_iff_of_pos_right h).mpr h12
    have hpow : (s1 / dot2 v v) ^ 2 ≤ (s2 / dot2 v v) ^ 2 :=
      pow_le_pow_left₀ (div_nonneg h0 h.le) hdiv 2
    exact mul_le_mul_of_nonneg_right hpow h.le

/-- C4 witness: the amended monotonicity at concrete strengths. -/
theorem c4_deflection_monotone_witness :
    (0 : ℝ) ≤ 0.01 ∧ (0.01 : ℝ) ≤ 0.04 ∧
    deflectionMag ⟨0.1, 0⟩ 0.01 ≤ deflectionMag ⟨0.1, 0⟩ 0.04 :=
  ⟨by norm_num, by norm_num,
    c4_deflection_monotone ⟨0.1, 0⟩ 0.01 0.04 (by norm_num) (by norm_num)⟩

/-- C5: lensing.frag has no spherical-margin exception: with the black hole
    behind the camera (tca < 0) but only 1 world unit away — well inside the
    2x-event-horizon margin (2 * 2 = 4) — the shader still takes the tca < 0
    early return and yields the unlensed background. -/
theorem c5_no_margin_exception :
    tcaOf sceneNear uvMid < 0 ∧
    norm3 (sub3 sceneNear.blackHoleWorldPosition sceneNear.cameraWorldPosition) <
      2 * sceneNear.eventHorizonRadius ∧
    shaderMain sceneNear uvMid = unlensedColor sceneNear uvMid := by
  refine ⟨by rw [tca_sceneNear]; norm_num, ?_, shader_sceneNear⟩
  have h : norm3 (sub3 sceneNear.blackHoleWorldPosition sceneNear.cameraWorldPosition) = 1 := by
    have h1 : sub3 sceneNear.blackHoleWorldPosition sceneNear.cameraWorldPosition =
        ⟨0, 0, 1⟩ := by
      simp [sceneNear, sub3]
    rw [h1]
    simp only [norm3, dot3]
    norm_num [Real.sqrt_one]
  rw [h]
  norm_num [sceneNear]

/-- C6: the background sampling coordinate is wrapped by fract on every
    sampling path and never clamped: sampling is invariant under a (1,1)
    shift of the coordinate, and every non-absorbed result samples the
    background field at a point of the half-open unit square. -/
theorem c6_wraparound :
    (∀ (tex : Vec2 → Vec4) (uv : Vec2), texture2D tex (add2 uv ⟨1, 1⟩) = texture2D tex uv) ∧
    (∀ (u : Uniforms) (vUv : Vec2), shaderMain u vUv = .absorbed ∨
      ∃ p : Vec2, (0 ≤ p.x ∧ p.x < 1 ∧ 0 ≤ p.y ∧ p.y < 1) ∧
        shaderMain u vUv = .color (u.tex p)) := by
  constructor
  · intro tex uv
    unfold texture2D
    congr 1
    obtain ⟨a, b⟩ := uv
    simp [fract2, add2, fract_add_one]
  · intro u vUv
    unfold shaderMain
    split_ifs with h1 h2 h3
    · right
      refine ⟨fract2 (add2 vUv (driftVec u.time)),
        ⟨fract_nonneg _, fract_lt_one _, fract_nonneg _, fract_lt_one _⟩, ?_⟩
      unfold unlensedColor texture2D
      rw [fract2_fract2]
    · exact Or.inl rfl
    · right
      refine ⟨fract2 (add2 vUv (driftVec u.time)),
        ⟨fract_nonneg _, fract_lt_one _, fract_nonneg _, fract_lt_one _⟩, ?_⟩
      unfold unlensedColor texture2D
      rw [fract2_fract2]
    · right
      refine ⟨fract2 (add2 (preDriftFinalUv u vUv) (driftVec u.time)),
        ⟨fract_nonneg _, fract_lt_one _, fract_nonneg _, fract_lt_one _⟩, ?_⟩
      unfold lensedColor texture2D
      rw [fract2_fract2]

/-- Modelled from the spec: the brightness scaling of the returned color
    ("return that color scaled by the brightness factor").  The fragment
    shader in src declares no backgroundBrightness uniform and performs no
    such scaling, even though lensingEffect.js supplies the uniform. -/
def specBrightnessScale (b : ℝ) (c : Vec4) : Vec4 := ⟨b * c.x, b * c.y, b * c.z, c.w⟩

/-- C7: on a deflected-path evaluation over a constant white background the
    shader returns the raw texture sample (1,1,1,1), which differs from the
    spec-mandated brightness-scaled color for the host-supplied brightness 2:
    the backgroundBrightness uniform set by updateLensingUniforms is unused
    by lensing.frag. -/
theorem c7_no_brightness_scaling :
    shaderMain sceneSide uvMid = FragResult.color ⟨1, 1, 1, 1⟩ ∧
    specBrightnessScale 2 ⟨1, 1, 1, 1⟩ ≠ ⟨1, 1, 1, 1⟩ := by
  refine ⟨shader_sceneSide, ?_⟩
  simp only [specBrightnessScale, Vec4.mk.injEq]
  norm_num

/-- C8: the deflection magnitude, measured in the aspect-corrected screen
    metric, is the same at any two screen points whose centered coordinates
    are equidistant from the black hole's screen projection — it depends only
    on the aspect-corrected distance, not on direction. -/
theorem c8_center_symmetry (u1 u2 : Vec2) (s : ℝ) (h : dot2 u1 u1 = dot2 u2 u2) :
    deflectionMag u1 s = deflectionMag u2 s := by
  unfold deflectionMag norm2
  rw [deflection_sq, deflection_sq, h]

/-- C8 witness: two concrete points at equal aspect-corrected distance in
    orthogonal directions from the lens center. -/
theorem c8_center_symmetry_witness :
    dot2 ⟨0.25, 0⟩ ⟨0.25, 0⟩ = dot2 ⟨0, 0.25⟩ ⟨0, 0.25⟩ ∧
    deflectionMag ⟨0.25, 0⟩ 0.03334 = deflectionMag ⟨0, 0.25⟩ 0.03334 := by
  have h : dot2 (⟨0.25, 0⟩ : Vec2) ⟨0.25, 0⟩ = dot2 (⟨0, 0.25⟩ : Vec2) ⟨0, 0.25⟩ := by
    simp only [dot2]
    norm_num
  exact ⟨h, c8_center_symmetry _ _ _ h⟩

/- ----------------------------------------------------------------------
   Claims about the ray visualizer.
   ---------------------------------------------------------------------- -/

/-- C9: a ray whose computed impact parameter is within the 1.1x margin of
    the event horizon is skipped: it contributes no line segment. -/
theorem c9_absorbed_rays_skipped (p : RayParams) (w : WindowDims) (cam : RayCamera)
    (bh : Vec3) (strength : ℝ) (numRays i : ℕ)
    (h : rayImpactParam p w cam bh numRays i < p.eventHorizonRadius * 1.1) :
    processRay p w cam bh strength numRays i = none := by
  unfold processRay
  rw [if_pos h]

/-- Evaluation scene for the ray visualizer: identity camera at the origin,
    a 2x2 window, one ray aimed straight at the black hole. -/
def rayParamsW : RayParams := ⟨true, 1, 0, 300, 1⟩

/-- Identity camera for the ray-visualizer evaluation scene. -/
def rayCamW : RayCamera := ⟨⟨0, 0, 0⟩, 1, 1, 1, 1⟩

/-- Window for the ray-visualizer evaluation scene. -/
def windowW : WindowDims := ⟨2, 2⟩

/-- Black hole for the ray-visualizer evaluation scene. -/
def bhW : Vec3 := ⟨0, 0, -5⟩

lemma applyMatrix4_one (v : Vec3) : applyMatrix4 1 v = v := by
  obtain ⟨a, b, c⟩ := v
  simp [applyMatrix4, mulVec4_one]

lemma rayImpact_eval : rayImpactParam rayParamsW windowW rayCamW bhW 1 0 = 0 := by
  have hbhS : getBlackHoleScreenPosition windowW rayCamW bhW = ⟨1, 1, -5⟩ := by
    simp [getBlackHoleScreenPosition, windowW, rayCamW, bhW, applyMatrix4_one]
    norm_num
  have hos : rayObservedScreen rayParamsW ⟨1, 1, -5⟩ 1 0 = ⟨1, 1⟩ := by
    simp [rayObservedScreen, rayParamsW]
  have hdir : rayToObserverDir windowW rayCamW ⟨1, 1⟩ = ⟨0, 0, -1⟩ := by
    simp only [rayToObserverDir, windowW, rayCamW, unprojectPoint, applyMatrix4_one]
    simp [sub3, normalize3, dot3]
  simp only [rayImpactParam, hbhS, hos, hdir]
  simp [rayCamW, bhW, sub3, dot3, add3, scale3, norm3]

/-- C9 witness: a concrete central ray with impact parameter 0, skipped by
    the visualizer. -/
theorem c9_absorbed_rays_skipped_witness :
    rayImpactParam rayParamsW windowW rayCamW bhW 1 0 < rayParamsW.eventHorizonRadius * 1.1 ∧
    processRay rayParamsW windowW rayCamW bhW 0.03334 1 0 = none := by
  have h : rayImpactParam rayParamsW windowW rayCamW bhW 1 0 <
      rayParamsW.eventHorizonRadius * 1.1 := by
    rw [rayImpact_eval]
    norm_num [rayParamsW]
  exact ⟨h, c9_absorbed_rays_skipped rayParamsW windowW rayCamW bhW 0.03334 1 0 h⟩

/-- Number of drawn rays in a list of per-ray outcomes. -/
def countSome (l : List (Option (Vec3 × Vec3 × Vec3))) : ℕ := (l.filterMap id).length

lemma countSome_le (l : List (Option (Vec3 × Vec3 × Vec3))) : countSome l ≤ l.length :=
  List.length_filterMap_le id l

lemma countSome_cons_none (l : List (Option (Vec3 × Vec3 × Vec3))) :
    countSome (none :: l) = countSome l := by
  simp [countSome]

lemma countSome_cons_some (seg : Vec3 × Vec3 × Vec3) (l : List (Option (Vec3 × Vec3 × Vec3))) :
    countSome (some seg :: l) = countSome l + 1 := by
  simp [countSome]

lemma drawStep_foldl (l : List (Option (Vec3 × Vec3 × Vec3))) :
    ∀ len vri : ℕ, vri ≤ len →
      l.foldl drawStep (len, vri) = (max len (vri + countSome l), vri + countSome l) := by
  induction l with
  | nil =>
    intro len vri h
    simp only [List.foldl_nil, countSome, List.filterMap_nil, List.length_nil, Nat.add_zero]
    rw [Nat.max_eq_left h]
  | cons hd tl ih =>
    intro len vri h
    cases hd with
    | none =>
      simp only [List.foldl_cons, drawStep]
      rw [ih len vri h, countSome_cons_none]
    | some seg =>
      simp only [List.foldl_cons, drawStep]
      by_cases hlt : vri < len
      · rw [if_pos hlt, ih len (vri + 1) hlt, countSome_cons_some]
        simp only [Prod.mk.injEq]
        omega
      · rw [if_neg hlt, ih (len + 1) (vri + 1) (by omega), countSome_cons_some]
        simp only [Prod.mk.injEq]
        omega

lemma runUpdate_eval (p : RayParams) (w : WindowDims) (cam : RayCamera) (bh : Vec3)
    (strength : ℝ) (len : ℕ) :
    runUpdate p w cam bh strength len =
      (max len (visibleSegments p w cam bh strength).length,
       (visibleSegments p w cam bh strength).length) := by
  unfold runUpdate visibleSegments
  by_cases hs : p.showRays
  · rw [if_pos hs, if_pos hs,
      drawStep_foldl _ len 0 (Nat.zero_le len)]
    have hc : countSome ((List.range (numRaysOf p)).map
        (processRay p w cam bh strength (numRaysOf p))) =
        ((List.range (numRaysOf p)).filterMap
          (processRay p w cam bh strength (numRaysOf p))).length := by
      unfold countSome
      rw [List.filterMap_map]
      simp
    rw [hc]
    simp
  · rw [if_neg hs, if_neg hs]
    simp

/-- C10: every update processes min(50, numVisualizedRays) rays, makes at
    most 50 segments visible, never grows the group beyond max(previous, 50)
    line objects (reuse before append), and across any sequence of updates
    from the initially empty group the group holds at most 50 line objects. -/
theorem c10_group_bounded (p : RayParams) (w : WindowDims) (cam : RayCamera)
    (bh : Vec3) (strength : ℝ) (len : ℕ) :
    numRaysOf p = min 50 p.numVisualizedRays ∧
    (runUpdate p w cam bh strength len).2 = (visibleSegments p w cam bh strength).length ∧
    (runUpdate p w cam bh strength len).2 ≤ 50 ∧
    (runUpdate p w cam bh strength len).1 ≤ max len 50 ∧
    ∀ calls : List RayCall, groupLenAfter calls ≤ 50 := by
  have hseg : (visibleSegments p w cam bh strength).length ≤ 50 := by
    unfold visibleSegments
    by_cases hs : p.showRays
    · rw [if_pos hs]
      calc ((List.range (numRaysOf p)).filterMap
            (processRay p w cam bh strength (numRaysOf p))).length
          ≤ (List.range (numRaysOf p)).length := List.length_filterMap_le _ _
        _ = numRaysOf p := List.length_range _
        _ ≤ 50 := Nat.min_le_left _ _
    · rw [if_neg hs]
      simp
  refine ⟨rfl, ?_, ?_, ?_, ?_⟩
  · rw [runUpdate_eval]
  · rw [runUpdate_eval]
    exact hseg
  · rw [runUpdate_eval]
    exact max_le_max (le_refl len) hseg
  · intro calls
    have hstep : ∀ (cs : List RayCall) (n : ℕ), n ≤ 50 →
        cs.foldl (fun ln a => (runUpdate a.p a.w a.cam a.bh a.strength ln).1) n ≤ 50 := by
      intro cs
      induction cs with
      | nil => intro n hn; simpa using hn
      | cons c cs2 ih =>
        intro n hn
        simp only [List.foldl_cons]
        apply ih
        rw [runUpdate_eval]
        have hseg2 : (visibleSegments c.p c.w c.cam c.bh c.strength).length ≤ 50 := by
          unfold visibleSegments
          by_cases hs : c.p.showRays
          · rw [if_pos hs]
            calc ((List.range (numRaysOf c.p)).filterMap
                  (processRay c.p c.w c.cam c.bh c.strength (numRaysOf c.p))).length
                ≤ (List.range (numRaysOf c.p)).length := List.length_filterMap_le _ _
              _ = numRaysOf c.p := List.length_range _
              _ ≤ 50 := Nat.min_le_left _ _
          · rw [if_neg hs]
            simp
        exact Nat.max_le.mpr ⟨hn, hseg2⟩
    exact hstep calls 0 (by norm_num)

/-- C10 witness: the bounds at a concrete parameter set, one-ray update on an
    empty group. -/
theorem c10_group_bounded_witness :
    numRaysOf rayParamsW = min 50 rayParamsW.numVisualizedRays ∧
    (runUpdate rayParamsW windowW rayCamW bhW 0.03334 0).2 ≤ 50 ∧
    (runUpdate rayParamsW windowW rayCamW bhW 0.03334 0).1 ≤ max 0 50 ∧
    groupLenAfter [] ≤ 50 :=
  ⟨(c10_group_bounded rayParamsW windowW rayCamW bhW 0.03334 0).1,
   (c10_group_bounded rayParamsW windowW rayCamW bhW 0.03334 0).2.2.1,
   (c10_group_bounded rayParamsW windowW rayCamW bhW 0.03334 0).2.2.2.1,
   (c10_group_bounded rayParamsW windowW rayCamW bhW 0.03334 0).2.2.2.2 []⟩

end StellarLens

end
